import Mathlib

/-!
Shallow embedding of the redux-essentials-example-app state management code.

The repository stores its normalized state in the `{ ids, entities }` shape
produced by Redux Toolkit's `createEntityAdapter`.  JavaScript objects preserve
insertion order of string keys, so the `entities` lookup table is embedded as an
association list `List (String × α)`; the `ids` ordering array is a
`List String`.  The adapter operations used by the slices (`upsertMany`,
`addOne`, `setAll`) and the generated selectors (`selectAll`, `selectById`) are
embedded below following their library semantics: an upsert merges the payload
record over the record already stored under the same id key (the payloads here
are whole records, so the merge replaces every field) or appends a new entry,
and for an adapter built with a `sortComparer` the `ids` array is recomputed by
sorting all stored records with the comparer.  The comparer used by the posts
and notifications adapters is `(a, b) => b.date.localeCompare(a.date)`, i.e.
newest date first; `localeCompare` on the ISO date strings used by the app is
embedded as code-point string comparison.
-/

/-- JavaScript object property assignment `m[k] = v`: if the key already
exists its (first) entry is overwritten in place, otherwise the new entry is
appended at the end. -/
def updateFirst (p : α → Bool) (f : α → α) : List α → List α
  | [] => []
  | a :: as => if p a then f a :: as else a :: updateFirst p f as

/-- JavaScript object property read `m[k]`: the value stored under key `k`,
`none` when the key is absent (JS `undefined`). -/
def alookup (m : List (String × α)) (k : String) : Option α :=
  (m.find? (fun q => q.1 == k)).map (fun q => q.2)

/-- JavaScript object property write `m[k] = v`. -/
def aset (m : List (String × α)) (k : String) (v : α) : List (String × α) :=
  if m.any (fun q => q.1 == k) then updateFirst (fun q => q.1 == k) (fun _ => (k, v)) m
  else m ++ [(k, v)]

/-- The keys of the lookup table, in insertion order. -/
def keys (m : List (String × α)) : List String := m.map (fun q => q.1)

theorem keys_nil : keys ([] : List (String × α)) = [] := rfl

theorem keys_cons (q : String × α) (m : List (String × α)) :
    keys (q :: m) = q.1 :: keys m := rfl

theorem keys_append (m₁ m₂ : List (String × α)) :
    keys (m₁ ++ m₂) = keys m₁ ++ keys m₂ := by
  simp [keys]

theorem alookup_cons (q : String × α) (m : List (String × α)) (k : String) :
    alookup (q :: m) k = if q.1 = k then some q.2 else alookup m k := by
  by_cases h : q.1 = k <;> simp [alookup, List.find?_cons, h]

theorem any_key_iff (m : List (String × α)) (k : String) :
    (m.any (fun q => q.1 == k)) = true ↔ k ∈ keys m := by
  induction m with
  | nil => simp [keys]
  | cons a m ih =>
    rw [List.any_cons, keys_cons, List.mem_cons]
    simp only [Bool.or_eq_true, beq_iff_eq, ih]
    constructor
    · rintro (hc | hc)
      · exact Or.inl hc.symm
      · exact Or.inr hc
    · rintro (hc | hc)
      · exact Or.inl hc.symm
      · exact Or.inr hc

theorem alookup_eq_none_iff (m : List (String × α)) (k : String) :
    alookup m k = none ↔ k ∉ keys m := by
  induction m with
  | nil => simp [alookup, keys]
  | cons a m ih =>
    rw [alookup_cons, keys_cons]
    by_cases h : a.1 = k
    · simp [h]
    · rw [if_neg h, ih, List.mem_cons]
      constructor
      · rintro hm (hc | hc)
        · exact h hc.symm
        · exact hm hc
      · intro hm hc
        exact hm (Or.inr hc)

theorem alookup_append (m₁ m₂ : List (String × α)) (k : String) :
    alookup (m₁ ++ m₂) k =
      match alookup m₁ k with
      | some v => some v
      | none => alookup m₂ k := by
  induction m₁ with
  | nil => simp [alookup]
  | cons q m₁ ih =>
    by_cases h : q.1 = k <;> simp [alookup_cons, h, ih]

theorem keys_updateFirst (m : List (String × α)) (k : String) (v : α) :
    keys (updateFirst (fun q => q.1 == k) (fun _ => (k, v)) m) = keys m := by
  induction m with
  | nil => rfl
  | cons q m ih =>
    by_cases h : q.1 = k
    · simp [updateFirst, h, keys_cons]
    · simp [updateFirst, h, keys_cons, ih]

theorem keys_aset_of_mem (m : List (String × α)) (k : String) (v : α)
    (h : k ∈ keys m) : keys (aset m k v) = keys m := by
  rw [aset, if_pos ((any_key_iff m k).mpr h)]
  exact keys_updateFirst m k v

theorem keys_aset_of_not_mem (m : List (String × α)) (k : String) (v : α)
    (h : k ∉ keys m) : keys (aset m k v) = keys m ++ [k] := by
  rw [aset, if_neg]
  · simp [keys]
  · intro hc
    exact h ((any_key_iff m k).mp hc)

theorem mem_keys_aset (m : List (String × α)) (k k' : String) (v : α) :
    k' ∈ keys (aset m k v) ↔ k' ∈ keys m ∨ k' = k := by
  by_cases h : k ∈ keys m
  · rw [keys_aset_of_mem m k v h]
    constructor
    · exact Or.inl
    · rintro (hk | rfl)
      · exact hk
      · exact h
  · rw [keys_aset_of_not_mem m k v h]
    simp

theorem nodup_keys_aset (m : List (String × α)) (k : String) (v : α)
    (h : (keys m).Nodup) : (keys (aset m k v)).Nodup := by
  by_cases hk : k ∈ keys m
  · rw [keys_aset_of_mem m k v hk]; exact h
  · rw [keys_aset_of_not_mem m k v hk]
    simp [List.nodup_append, h, hk]

theorem mem_updateFirst_pair (m : List (String × α)) (k : String) (v : α)
    (q : String × α)
    (hq : q ∈ updateFirst (fun r => r.1 == k) (fun _ => (k, v)) m) :
    q = (k, v) ∨ q ∈ m := by
  induction m with
  | nil => simp [updateFirst] at hq
  | cons a m ih =>
    by_cases ha : a.1 = k
    · rw [updateFirst, if_pos (by simpa using ha)] at hq
      rcases List.mem_cons.mp hq with h | h
      · exact Or.inl h
      · exact Or.inr (List.mem_cons_of_mem a h)
    · rw [updateFirst, if_neg (by simpa using ha)] at hq
      rcases List.mem_cons.mp hq with h | h
      · exact Or.inr (h ▸ List.mem_cons_self a m)
      · rcases ih h with h | h
        · exact Or.inl h
        · exact Or.inr (List.mem_cons_of_mem a h)

theorem mem_aset (m : List (String × α)) (k : String) (v : α) (q : String × α)
    (hq : q ∈ aset m k v) : q = (k, v) ∨ q ∈ m := by
  rw [aset] at hq
  by_cases h : m.any (fun q => q.1 == k) = true
  · rw [if_pos h] at hq
    exact mem_updateFirst_pair m k v q hq
  · rw [if_neg h] at hq
    rcases List.mem_append.mp hq with h | h
    · exact Or.inr h
    · exact Or.inl (by simpa using h)

theorem alookup_aset_self (m : List (String × α)) (k : String) (v : α) :
    alookup (aset m k v) k = some v := by
  rw [aset]
  by_cases h : m.any (fun q => q.1 == k) = true
  · rw [if_pos h]
    rw [any_key_iff] at h
    induction m with
    | nil => simp [keys] at h
    | cons a m ih =>
      by_cases ha : a.1 = k
      · rw [updateFirst, if_pos (by simpa using ha)]
        simp [alookup_cons]
      · rw [updateFirst, if_neg (by simpa using ha)]
        rw [alookup_cons, if_neg ha]
        rw [keys_cons, List.mem_cons] at h
        exact ih (h.resolve_left (fun hc => ha hc.symm))
  · rw [if_neg h, alookup_append]
    have hn : alookup m k = none := by
      rw [alookup_eq_none_iff]
      intro hk
      exact h ((any_key_iff m k).mpr hk)
    simp [hn, alookup_cons]

theorem alookup_aset_ne (m : List (String × α)) (k k' : String) (v : α)
    (h : k' ≠ k) : alookup (aset m k v) k' = alookup m k' := by
  rw [aset]
  by_cases hm : m.any (fun q => q.1 == k) = true
  · rw [if_pos hm]
    clear hm
    induction m with
    | nil => rfl
    | cons a m ih =>
      by_cases ha : a.1 = k
      · subst ha
        simp only [updateFirst, beq_self_eq_true, if_true]
        rw [alookup_cons, alookup_cons, if_neg, if_neg]
        · exact fun hc => h hc.symm
        · exact fun hc => h hc.symm
      · simp only [updateFirst, beq_iff_eq, ha, if_false]
        rw [alookup_cons, alookup_cons, ih]
  · rw [if_neg hm, alookup_append]
    cases hl : alookup m k' with
    | some v' => simp
    | none =>
      simp only []
      rw [alookup_cons, if_neg (fun hc => h hc.symm)]
      rfl

theorem alookup_eq_some_of_mem (m : List (String × α)) (k : String) (v : α)
    (hnd : (keys m).Nodup) (hmem : (k, v) ∈ m) : alookup m k = some v := by
  induction m with
  | nil => simp at hmem
  | cons a m ih =>
    rcases List.mem_cons.mp hmem with h | h
    · rw [← h, alookup_cons, if_pos rfl]
    · rw [alookup_cons]
      have hk : k ∈ keys m := by
        simp only [keys, List.mem_map]
        exact ⟨(k, v), h, rfl⟩
      rw [keys_cons] at hnd
      have ha : a.1 ≠ k := fun hc => (List.nodup_cons.mp hnd).1 (hc ▸ hk)
      rw [if_neg ha]
      exact ih (List.nodup_cons.mp hnd).2 h

theorem alookup_map_value (m : List (String × α)) (f : α → β) (k : String) :
    alookup (m.map (fun q => (q.1, f q.2))) k = (alookup m k).map f := by
  induction m with
  | nil => rfl
  | cons a m ih =>
    by_cases h : a.1 = k
    · simp [alookup_cons, h]
    · simp only [List.map_cons]
      rw [alookup_cons, alookup_cons, if_neg h, if_neg h, ih]

/-! ### The sort comparer

Both the posts and the notifications adapters are created with
`sortComparer: (a, b) => b.date.localeCompare(a.date)`, and the array-based
notifications slice sorts with the same comparer.  `comparer a b ≤ 0` holds
exactly when `b.date ≤ a.date`, so the order it induces is newest date first.
-/

/-- Lexicographic code-point comparison of character lists:
`charListLe as bs` holds when `as` is at most `bs`. -/
def charListLe : List Char → List Char → Bool
  | [], _ => true
  | _ :: _, [] => false
  | a :: as, b :: bs =>
    if a < b then true
    else if b < a then false
    else charListLe as bs

/-- Code-point string comparison, `strLe a b ↔ a.localeCompare(b) ≤ 0` for the
date strings used by the app. -/
def strLe (a b : String) : Bool := charListLe a.data b.data

theorem charListLe_total : ∀ as bs : List Char,
    charListLe as bs = true ∨ charListLe bs as = true
  | [], _ => Or.inl rfl
  | _ :: _, [] => Or.inr rfl
  | a :: as, b :: bs => by
    by_cases hab : a < b
    · exact Or.inl (by rw [charListLe, if_pos hab])
    · by_cases hba : b < a
      · exact Or.inr (by rw [charListLe, if_pos hba])
      · rcases charListLe_total as bs with h | h
        · exact Or.inl (by rw [charListLe, if_neg hab, if_neg hba]; exact h)
        · exact Or.inr (by rw [charListLe, if_neg hba, if_neg hab]; exact h)

theorem charListLe_trans : ∀ as bs cs : List Char,
    charListLe as bs = true → charListLe bs cs = true → charListLe as cs = true
  | [], _, _, _, _ => rfl
  | _ :: _, [], _, h1, _ => by rw [charListLe] at h1; exact absurd h1 (by simp)
  | _ :: _, _ :: _, [], _, h2 => by rw [charListLe] at h2; exact absurd h2 (by simp)
  | a :: as, b :: bs, c :: cs, h1, h2 => by
    rw [charListLe] at h1 h2 ⊢
    by_cases hab : a < b
    · by_cases hbc : b < c
      · rw [if_pos (lt_trans hab hbc)]
      · rw [if_neg hbc] at h2
        by_cases hcb : c < b
        · rw [if_pos hcb] at h2
          exact absurd h2 (by simp)
        · have hbceq : b = c := le_antisymm (le_of_not_lt hcb) (le_of_not_lt hbc)
          rw [if_pos (hbceq ▸ hab)]
    · rw [if_neg hab] at h1
      by_cases hba : b < a
      · rw [if_pos hba] at h1
        exact absurd h1 (by simp)
      · rw [if_neg hba] at h1
        have habeq : a = b := le_antisymm (le_of_not_lt hba) (le_of_not_lt hab)
        subst habeq
        by_cases hbc : a < c
        · rw [if_pos hbc]
        · rw [if_neg hbc] at h2 ⊢
          by_cases hcb : c < a
          · rw [if_pos hcb] at h2
            exact absurd h2 (by simp)
          · rw [if_neg hcb] at h2 ⊢
            exact charListLe_trans as bs cs h1 h2

theorem strLe_total (a b : String) : strLe a b = true ∨ strLe b a = true :=
  charListLe_total a.data b.data

theorem strLe_trans (a b c : String) (h1 : strLe a b = true)
    (h2 : strLe b c = true) : strLe a c = true :=
  charListLe_trans a.data b.data c.data h1 h2

/-- The ordering induced by the comparer `(a, b) => b.date.localeCompare(a.date)`:
`a` sorts no later than `b` exactly when `b`'s date is at most `a`'s date. -/
def newestFirst (dat : α → String) (a b : α) : Prop := strLe (dat b) (dat a) = true

instance (dat : α → String) : DecidableRel (newestFirst dat) :=
  fun a b => inferInstanceAs (Decidable (strLe (dat b) (dat a) = true))

instance (dat : α → String) : IsTotal α (newestFirst dat) :=
  ⟨fun a b => strLe_total (dat b) (dat a)⟩

instance (dat : α → String) : IsTrans α (newestFirst dat) :=
  ⟨fun _ _ _ h₁ h₂ => strLe_trans _ _ _ h₂ h₁⟩

/-! ### Entity adapter operations

Embeddings of the `createEntityAdapter` reducer utilities the slices use,
generic in the entity type `α`, its id accessor `eid` and (for sorted adapters)
its date accessor `dat`.
-/

/-- Sorted-adapter id recomputation (`resortEntities`): the `ids` array is
rebuilt by sorting every stored record with the slice comparer and taking the
records' ids. -/
def resortIds (eid dat : α → String) (m : List (String × α)) : List String :=
  (List.insertionSort (newestFirst dat) (m.map (fun q => q.2))).map eid

/-- `upsertMany` on the `entities` table: each payload record is written under
its id key, replacing the record already stored there if any (the payloads in
this app are whole records, so the library's field merge amounts to
replacement), or appended as a new entry. -/
def upsertEntities (eid : α → String) (m : List (String × α)) : List α → List (String × α)
  | [] => m
  | e :: es => upsertEntities eid (aset m (eid e) e) es

/-- Unsorted-adapter `addMany`: each payload record whose id key is not yet
present is appended to `ids` and `entities`; records whose id already exists
are skipped. -/
def addManyUnsorted (eid : α → String)
    (acc : List String × List (String × α)) : List α → List String × List (String × α)
  | [] => acc
  | e :: es =>
    if acc.2.any (fun q => q.1 == eid e) then addManyUnsorted eid acc es
    else addManyUnsorted eid (acc.1 ++ [eid e], acc.2 ++ [(eid e, e)]) es

/-- Unsorted-adapter `setAll`: `ids` and `entities` are cleared, then every
payload record is added. -/
def setAllEntities (eid : α → String) (payload : List α) :
    List String × List (String × α) :=
  addManyUnsorted eid ([], []) payload

/-- The adapter-generated `selectAll` selector: the stored records read off in
the order given by the `ids` array.  (In JS `state.ids.map(id =>
state.entities[id])`; an id without a stored record would produce `undefined`,
which has no counterpart in `List α`, so the embedding keeps the defined
entries — under the slices' well-formedness every id has exactly one record,
so no entry is dropped.) -/
def selectAllEnt (ids : List String) (m : List (String × α)) : List α :=
  ids.filterMap (alookup m)

/-- Well-formedness of an `{ids, entities}` pair as stated by the spec: the
`ids` array has no duplicates, the `entities` table holds exactly one record
per listed id (its key list is duplicate-free and is a permutation of `ids`),
and each record is stored under its own id as key. -/
def wfEntityState (eid : α → String) (ids : List String) (m : List (String × α)) : Prop :=
  ids.Nodup ∧ (keys m).Nodup ∧ (∀ q ∈ m, eid q.2 = q.1) ∧
    List.Perm ids (keys m)

/-! ### Properties of the adapter operations -/

theorem upsertEntities_cons (eid : α → String) (m : List (String × α)) (e : α)
    (es : List α) :
    upsertEntities eid m (e :: es) = upsertEntities eid (aset m (eid e) e) es := rfl

theorem nodup_keys_upsert (eid : α → String) (payload : List α)
    (m : List (String × α)) (h : (keys m).Nodup) :
    (keys (upsertEntities eid m payload)).Nodup := by
  induction payload generalizing m with
  | nil => exact h
  | cons e es ih => exact ih (aset m (eid e) e) (nodup_keys_aset m (eid e) e h)

theorem keyed_by_id_aset (eid : α → String) (m : List (String × α)) (v : α)
    (h : ∀ q ∈ m, eid q.2 = q.1) (q : String × α) (hq : q ∈ aset m (eid v) v) :
    eid q.2 = q.1 := by
  rcases mem_aset m (eid v) v q hq with hh | hh
  · rw [hh]
  · exact h q hh

theorem keyed_by_id_upsert (eid : α → String) (payload : List α)
    (m : List (String × α)) (h : ∀ q ∈ m, eid q.2 = q.1) :
    ∀ q ∈ upsertEntities eid m payload, eid q.2 = q.1 := by
  induction payload generalizing m with
  | nil => exact h
  | cons e es ih =>
    exact ih (aset m (eid e) e) (keyed_by_id_aset eid m e h)

theorem mem_keys_upsert (eid : α → String) (payload : List α)
    (m : List (String × α)) (k : String) :
    k ∈ keys (upsertEntities eid m payload) ↔ k ∈ keys m ∨ k ∈ payload.map eid := by
  induction payload generalizing m with
  | nil => simp [upsertEntities]
  | cons e es ih =>
    rw [upsertEntities_cons, ih, mem_keys_aset]
    simp only [List.map_cons, List.mem_cons]
    constructor
    · rintro ((h | h) | h)
      · exact Or.inl h
      · exact Or.inr (Or.inl h)
      · exact Or.inr (Or.inr h)
    · rintro (h | h | h)
      · exact Or.inl (Or.inl h)
      · exact Or.inl (Or.inr h)
      · exact Or.inr h

theorem alookup_upsert_of_not_mem (eid : α → String) (payload : List α)
    (m : List (String × α)) (k : String) (h : k ∉ payload.map eid) :
    alookup (upsertEntities eid m payload) k = alookup m k := by
  induction payload generalizing m with
  | nil => rfl
  | cons e es ih =>
    simp only [List.map_cons, List.mem_cons] at h
    rw [upsertEntities_cons, ih (aset m (eid e) e) (fun hc => h (Or.inr hc)),
      alookup_aset_ne]
    exact fun hc => h (Or.inl hc)

theorem alookup_upsert_of_mem_nodup (eid : α → String) (payload : List α)
    (m : List (String × α)) (e : α) (hnd : (payload.map eid).Nodup)
    (he : e ∈ payload) :
    alookup (upsertEntities eid m payload) (eid e) = some e := by
  induction payload generalizing m with
  | nil => simp at he
  | cons a es ih =>
    rw [List.map_cons, List.nodup_cons] at hnd
    rcases List.mem_cons.mp he with h | h
    · subst h
      rw [upsertEntities_cons, alookup_upsert_of_not_mem eid es _ _ hnd.1]
      exact alookup_aset_self m (eid e) e
    · exact ih (aset m (eid a) a) hnd.2 h

theorem length_keys_upsert_mem (eid : α → String) (m : List (String × α)) (e : α)
    (h : eid e ∈ keys m) :
    keys (upsertEntities eid m [e]) = keys m := by
  rw [upsertEntities_cons]
  exact keys_aset_of_mem m (eid e) e h

/-! ### Properties of the sorted id recomputation -/

theorem resortIds_perm_keys (eid dat : α → String) (m : List (String × α))
    (h : ∀ q ∈ m, eid q.2 = q.1) : List.Perm (resortIds eid dat m) (keys m) := by
  have h₁ : List.Perm
      ((List.insertionSort (newestFirst dat) (m.map (fun q => q.2))).map eid)
      ((m.map (fun q => q.2)).map eid) :=
    (List.perm_insertionSort (newestFirst dat) (m.map (fun q => q.2))).map eid
  have h₂ : (m.map (fun q => q.2)).map eid = keys m := by
    rw [List.map_map, keys]
    exact List.map_congr_left h
  rw [resortIds]
  rw [h₂] at h₁
  exact h₁

theorem nodup_resortIds (eid dat : α → String) (m : List (String × α))
    (hnd : (keys m).Nodup) (h : ∀ q ∈ m, eid q.2 = q.1) :
    (resortIds eid dat m).Nodup := by
  exact ((resortIds_perm_keys eid dat m h).nodup_iff).mpr hnd

theorem mem_resortIds (eid dat : α → String) (m : List (String × α))
    (h : ∀ q ∈ m, eid q.2 = q.1) (k : String) :
    k ∈ resortIds eid dat m ↔ k ∈ keys m :=
  (resortIds_perm_keys eid dat m h).mem_iff

theorem filterMap_alookup_of_forall (m : List (String × α)) (eid : α → String)
    (l : List α) (h : ∀ v ∈ l, alookup m (eid v) = some v) :
    (l.map eid).filterMap (alookup m) = l := by
  induction l with
  | nil => rfl
  | cons v l ih =>
    rw [List.map_cons, List.filterMap_cons, h v (List.mem_cons_self v l)]
    rw [ih (fun w hw => h w (List.mem_cons_of_mem v hw))]

theorem alookup_eid_of_mem_values (eid : α → String) (m : List (String × α))
    (hnd : (keys m).Nodup) (h : ∀ q ∈ m, eid q.2 = q.1) (v : α)
    (hv : v ∈ m.map (fun q => q.2)) : alookup m (eid v) = some v := by
  rw [List.mem_map] at hv
  obtain ⟨q, hq, rfl⟩ := hv
  rw [h q hq]
  exact alookup_eq_some_of_mem m q.1 q.2 hnd hq

/-- After a resort, reading the records back in `ids` order yields exactly the
records sorted newest-first. -/
theorem selectAll_resort (eid dat : α → String) (m : List (String × α))
    (hnd : (keys m).Nodup) (h : ∀ q ∈ m, eid q.2 = q.1) :
    selectAllEnt (resortIds eid dat m) m =
      List.insertionSort (newestFirst dat) (m.map (fun q => q.2)) := by
  rw [selectAllEnt, resortIds]
  apply filterMap_alookup_of_forall
  intro v hv
  exact alookup_eid_of_mem_values eid m hnd h v
    ((List.perm_insertionSort (newestFirst dat) (m.map (fun q => q.2))).mem_iff.mp hv)

theorem sorted_selectAll_resort (eid dat : α → String) (m : List (String × α))
    (hnd : (keys m).Nodup) (h : ∀ q ∈ m, eid q.2 = q.1) :
    List.Sorted (newestFirst dat) (selectAllEnt (resortIds eid dat m) m) := by
  rw [selectAll_resort eid dat m hnd h]
  exact List.sorted_insertionSort (newestFirst dat) (m.map (fun q => q.2))

/-! ### Properties of the unsorted adapter operations (`setAll`) -/

theorem alookup_ne_none_of_mem_keys (m : List (String × α)) (k : String)
    (h : k ∈ keys m) : alookup m k ≠ none := by
  intro hc
  exact (alookup_eq_none_iff m k).mp hc h

theorem addManyUnsorted_fst_eq_keys (eid : α → String) (payload : List α)
    (acc : List String × List (String × α)) (h : acc.1 = keys acc.2) :
    (addManyUnsorted eid acc payload).1 = keys (addManyUnsorted eid acc payload).2 := by
  induction payload generalizing acc with
  | nil => exact h
  | cons e es ih =>
    rw [addManyUnsorted]
    by_cases hc : acc.2.any (fun q => q.1 == eid e) = true
    · rw [if_pos hc]
      exact ih acc h
    · rw [if_neg hc]
      refine ih _ ?_
      simp only [keys_append, h]
      rfl

theorem nodup_keys_addManyUnsorted (eid : α → String) (payload : List α)
    (acc : List String × List (String × α)) (h : (keys acc.2).Nodup) :
    (keys (addManyUnsorted eid acc payload).2).Nodup := by
  induction payload generalizing acc with
  | nil => exact h
  | cons e es ih =>
    rw [addManyUnsorted]
    by_cases hc : acc.2.any (fun q => q.1 == eid e) = true
    · rw [if_pos hc]
      exact ih acc h
    · rw [if_neg hc]
      refine ih _ ?_
      have hk : eid e ∉ keys acc.2 := fun hm => hc ((any_key_iff acc.2 (eid e)).mpr hm)
      rw [keys_append, List.nodup_append]
      refine ⟨h, List.nodup_singleton _, ?_⟩
      intro a ha hb
      have heq : a = eid e := by simpa [keys] using hb
      rw [heq] at ha
      exact hk ha

theorem keyed_by_id_addManyUnsorted (eid : α → String) (payload : List α)
    (acc : List String × List (String × α)) (h : ∀ q ∈ acc.2, eid q.2 = q.1) :
    ∀ q ∈ (addManyUnsorted eid acc payload).2, eid q.2 = q.1 := by
  induction payload generalizing acc with
  | nil => exact h
  | cons e es ih =>
    rw [addManyUnsorted]
    by_cases hc : acc.2.any (fun q => q.1 == eid e) = true
    · rw [if_pos hc]
      exact ih acc h
    · rw [if_neg hc]
      refine ih _ ?_
      intro q hq
      rcases List.mem_append.mp hq with hm | hm
      · exact h q hm
      · have : q = (eid e, e) := by simpa using hm
        rw [this]

/-- First-occurrence-wins lookup characterization of the unsorted `addMany`:
a key already stored keeps its record, a fresh key gets the first payload
record carrying it. -/
theorem alookup_addManyUnsorted (eid : α → String) (payload : List α)
    (acc : List String × List (String × α)) (k : String) :
    alookup (addManyUnsorted eid acc payload).2 k =
      match alookup acc.2 k with
      | some v => some v
      | none => payload.find? (fun e => eid e == k) := by
  induction payload generalizing acc with
  | nil =>
    rw [addManyUnsorted]
    cases alookup acc.2 k <;> simp [List.find?_nil]
  | cons e es ih =>
    rw [addManyUnsorted]
    by_cases hc : acc.2.any (fun q => q.1 == eid e) = true
    · rw [if_pos hc, ih acc]
      cases hl : alookup acc.2 k with
      | some v => rfl
      | none =>
        have hke : eid e ≠ k := by
          intro hk
          subst hk
          exact alookup_ne_none_of_mem_keys acc.2 (eid e)
            ((any_key_iff acc.2 (eid e)).mp hc) hl
        simp [List.find?_cons, hke]
    · rw [if_neg hc, ih]
      have hfresh : eid e ∉ keys acc.2 := fun hm => hc ((any_key_iff acc.2 (eid e)).mpr hm)
      by_cases hk : eid e = k
      · subst hk
        have h₁ : alookup acc.2 (eid e) = none := (alookup_eq_none_iff acc.2 (eid e)).mpr hfresh
        have h₂ : alookup (acc.2 ++ [(eid e, e)]) (eid e) = some e := by
          rw [alookup_append, h₁, alookup_cons, if_pos rfl]
        rw [h₂, h₁]
        simp [List.find?_cons]
      · have h₂ : alookup (acc.2 ++ [(eid e, e)]) k = alookup acc.2 k := by
          rw [alookup_append]
          cases hl : alookup acc.2 k with
          | some v => rfl
          | none => rw [alookup_cons, if_neg hk]; rfl
        rw [h₂]
        cases hl : alookup acc.2 k with
        | some v => rfl
        | none => simp [List.find?_cons, hk]

/-- With a duplicate-free payload, `addMany` on fresh keys appends exactly the
payload, in payload order. -/
theorem addManyUnsorted_of_fresh (eid : α → String) (payload : List α)
    (acc : List String × List (String × α))
    (hnd : (payload.map eid).Nodup)
    (hfresh : ∀ e ∈ payload, eid e ∉ keys acc.2) :
    addManyUnsorted eid acc payload =
      (acc.1 ++ payload.map eid, acc.2 ++ payload.map (fun e => (eid e, e))) := by
  induction payload generalizing acc with
  | nil => simp [addManyUnsorted]
  | cons e es ih =>
    rw [addManyUnsorted, if_neg]
    · rw [List.map_cons, List.nodup_cons] at hnd
      rw [ih _ hnd.2]
      · simp
      · intro a ha
        simp only [keys_append, List.mem_append]
        rintro (hm | hm)
        · exact hfresh a (List.mem_cons_of_mem e ha) hm
        · have : eid a = eid e := by simpa [keys] using hm
          exact hnd.1 (this ▸ List.mem_map_of_mem eid ha)
    · intro hc
      exact hfresh e (List.mem_cons_self e es) ((any_key_iff acc.2 (eid e)).mp hc)

/-! ### The Post entity and the posts slice (`src/features/posts/postsSlice.js`)

Posts are plain records `{id, date, title, content, user, reactions}`; the
`reactions` object maps reaction names to counters.  JavaScript counters can
become `NaN` (incrementing a missing property yields `NaN`), so counter values
are embedded as `JsNum`.
-/

/-- A JavaScript numeric property value: a number or `NaN`. -/
inductive JsNum where
  | nan : JsNum
  | num : Nat → JsNum
deriving Repr, DecidableEq

/-- JavaScript `x++` on a numeric property: `NaN` stays `NaN`. -/
def incJs : JsNum → JsNum
  | JsNum.nan => JsNum.nan
  | JsNum.num n => JsNum.num (n + 1)

structure Post where
  id : String
  date : String
  title : String
  content : String
  user : String
  reactions : List (String × JsNum)
deriving Repr, DecidableEq

/-- The posts slice state: the adapter's `{ids, entities}` shape with the
extra `status` and `error` fields passed to `getInitialState`. -/
structure PostsState where
  ids : List String
  entities : List (String × Post)
  status : String
  error : Option String
deriving Repr, DecidableEq

def postsInitialState : PostsState :=
  { ids := [], entities := [], status := "idle", error := none }

/-- `existingPost.reactions[reaction]++`: the named counter is incremented in
place; incrementing a property the object does not have stores `NaN`
(JS `undefined++`). -/
def bumpReaction (rs : List (String × JsNum)) (k : String) : List (String × JsNum) :=
  match alookup rs k with
  | none => aset rs k JsNum.nan
  | some v => aset rs k (incJs v)

/-- The `postUpdated` case reducer: look up `state.entities[postId]` and, when
the post exists, assign its `title` and `content` fields; otherwise do
nothing. -/
def postUpdated (st : PostsState) (postId title content : String) : PostsState :=
  match alookup st.entities postId with
  | none => st
  | some p =>
    let p2 : Post := { p with title := title, content := content }
    { st with entities := aset st.entities postId p2 }

/-- The `reactionAdded` case reducer: look up `state.entities[postId]` and,
when the post exists, run `existingPost.reactions[reaction]++`. -/
def reactionAdded (st : PostsState) (postId reaction : String) : PostsState :=
  match alookup st.entities postId with
  | none => st
  | some p =>
    let p2 : Post := { p with reactions := bumpReaction p.reactions reaction }
    { st with entities := aset st.entities postId p2 }

/-- `fetchPosts.pending`: `state.status = 'loading'`. -/
def fetchPostsPending (st : PostsState) : PostsState :=
  { st with status := "loading" }

/-- `fetchPosts.fulfilled`: `state.status = 'succeeded'` followed by
`postsAdapter.upsertMany(state, action.payload)` (sorted adapter, so the ids
are recomputed with the comparer). -/
def fetchPostsFulfilled (st : PostsState) (payload : List Post) : PostsState :=
  let m := upsertEntities Post.id st.entities payload
  { st with
    status := "succeeded"
    entities := m
    ids := resortIds Post.id Post.date m }

/-- `fetchPosts.rejected`: `state.status = 'failed'` and
`state.error = action.error.message`. -/
def fetchPostsRejected (st : PostsState) (message : Option String) : PostsState :=
  { st with status := "failed", error := message }

/-- `addNewPost.fulfilled` is handled by `postsAdapter.addOne`: a payload whose
id already exists is ignored, otherwise the record is added and the ids are
recomputed with the comparer. -/
def addNewPostFulfilled (st : PostsState) (p : Post) : PostsState :=
  if st.entities.any (fun q => q.1 == p.id) then st
  else
    let m := st.entities ++ [(p.id, p)]
    { st with entities := m, ids := resortIds Post.id Post.date m }

/-- Adapter selector `selectAll` through `getSelectors`: the stored records in
`ids` order. -/
def selectAllPosts (st : PostsState) : List Post :=
  selectAllEnt st.ids st.entities

/-- `selectPostById = (postId) => (state) => selectById(state, postId)`:
`state.entities[postId]`. -/
def selectPostById (postId : String) (st : PostsState) : Option Post :=
  alookup st.entities postId

/-- Adapter selector `selectIds`. -/
def selectPostIds (st : PostsState) : List String := st.ids

/-- `selectPostsByUser`: the memoized selector filtering `selectAllPosts` down
to the posts whose `user` field is `userId`. -/
def selectPostsByUser (userId : String) (st : PostsState) : List Post :=
  (selectAllPosts st).filter (fun post => post.user == userId)

/-- The component-level filter in `UserPage.js`:
`allPosts.filter(post => post.user === userId)` over `selectAllPosts`. -/
def postsForUser (userId : String) (st : PostsState) : List Post :=
  (selectAllPosts st).filter (fun post => post.user == userId)

def wfPosts (st : PostsState) : Prop :=
  wfEntityState Post.id st.ids st.entities

/-! ### The earlier array-based posts slice (second revision kept in
`src/features/posts/postsSlice.js`): state `{posts: [], status, error}`. -/

structure PostsArrState where
  posts : List Post
  status : String
  error : Option String
deriving Repr, DecidableEq

/-- `postAdded` reducer: `state.posts.push(action.payload)`. -/
def postAddedArr (st : PostsArrState) (p : Post) : PostsArrState :=
  { st with posts := st.posts ++ [p] }

/-- Array-based `postUpdated`: `state.posts.find(post => post.id === id)` and,
when found, assign `title` and `content` on that (first matching) post. -/
def postUpdatedArr (st : PostsArrState) (id title content : String) : PostsArrState :=
  match st.posts.find? (fun post => post.id == id) with
  | none => st
  | some _ =>
    { st with posts := (updateFirst (fun post => post.id == id)
        (fun p => { p with title := title, content := content }) st.posts) }

/-- Array-based `reactionAdded`: find the post by id and run
`existingPost.reactions[reaction]++`. -/
def reactionAddedArr (st : PostsArrState) (postId reaction : String) : PostsArrState :=
  match st.posts.find? (fun post => post.id == postId) with
  | none => st
  | some _ =>
    { st with posts := (updateFirst (fun post => post.id == postId)
        (fun p => { p with reactions := bumpReaction p.reactions reaction }) st.posts) }

/-! ### The `src/features/post/postsSlice.js` slice: the state is a bare array
of `{id, title, content}` records. -/

structure PostB where
  id : String
  title : String
  content : String
deriving Repr, DecidableEq

/-- `postUpdated` of the bare-array slice: `state.find(post => post.id === id)`
and, when found, assign `title` and `content` on the first matching post. -/
def postUpdatedB (posts : List PostB) (id title content : String) : List PostB :=
  match posts.find? (fun post => post.id == id) with
  | none => posts
  | some _ => updateFirst (fun post => post.id == id)
      (fun p => { p with title := title, content := content }) posts

/-- `selectPostById = (postId) => (state) =>
state.posts.find(post => post.id === postId)`. -/
def selectPostByIdB (postId : String) (posts : List PostB) : Option PostB :=
  posts.find? (fun post => post.id == postId)

/-! ### The users slice (`src/features/users/usersSlice.js`) -/

structure User where
  id : String
  name : String
deriving Repr, DecidableEq

structure UsersState where
  ids : List String
  entities : List (String × User)
deriving Repr, DecidableEq

/-- `fetchUsers.fulfilled` is handled by `usersAdapter.setAll`: the previous
contents are discarded and the payload records are added (the users adapter
has no `sortComparer`, so the ids keep payload order). -/
def fetchUsersFulfilled (_st : UsersState) (payload : List User) : UsersState :=
  let r := setAllEntities User.id payload
  { ids := r.1, entities := r.2 }

/-- The earlier users slice kept in `src/unnamed/part_001`: the state is a bare
array and the `fetchUsers.fulfilled` case reducer is
`(state, action) => action.payload`. -/
def fetchUsersFulfilledOld (_st : List User) (payload : List User) : List User :=
  payload

def wfUsers (st : UsersState) : Prop :=
  wfEntityState User.id st.ids st.entities

/-! ### The notifications slice (`src/features/notifications/notificationsSlice.js`) -/

structure Notification where
  id : String
  date : String
  message : String
  user : String
  read : Bool
  isNew : Bool
deriving Repr, DecidableEq

/-- The earlier array-based notifications slice:
`state.push(...action.payload)` then
`state.sort((a, b) => b.date.localeCompare(a.date))`. -/
def fetchNotificationsFulfilledArr (state payload : List Notification) :
    List Notification :=
  List.insertionSort (newestFirst Notification.date) (state ++ payload)

/-- The normalized notifications slice state (adapter with the newest-first
comparer). -/
structure NotifsState where
  ids : List String
  entities : List (String × Notification)
deriving Repr, DecidableEq

/-- `allNotificationsRead` reducer: `notification.read = true` for every
stored notification. -/
def allNotificationsRead (st : NotifsState) : NotifsState :=
  { st with entities := st.entities.map (fun q => (q.1, { q.2 with read := true })) }

/-- `fetchNotifications.fulfilled`:
`notificationsAdapter.upsertMany(state, action.payload)` (which recomputes the
ids with the comparer) followed by `notification.isNew = !notification.read`
for every stored notification. -/
def fetchNotificationsFulfilled (st : NotifsState) (payload : List Notification) :
    NotifsState :=
  let m := upsertEntities Notification.id st.entities payload
  { ids := resortIds Notification.id Notification.date m,
    entities := m.map (fun q => (q.1, { q.2 with isNew := !q.2.read })) }

/-- Adapter selector `selectAll` for notifications. -/
def selectAllNotifications (st : NotifsState) : List Notification :=
  selectAllEnt st.ids st.entities

def wfNotifs (st : NotifsState) : Prop :=
  wfEntityState Notification.id st.ids st.entities

/-! ### Lookup / membership glue and well-formedness preservation -/

theorem mem_of_alookup_eq_some (m : List (String × α)) (k : String) (v : α)
    (h : alookup m k = some v) : (k, v) ∈ m := by
  induction m with
  | nil => simp [alookup] at h
  | cons q m ih =>
    rw [alookup_cons] at h
    by_cases hq : q.1 = k
    · rw [if_pos hq] at h
      have hv : q.2 = v := by simpa using h
      have : q = (k, v) := by
        cases q
        simp only [Prod.mk.injEq]
        exact ⟨hq, hv⟩
      rw [← this]
      exact List.mem_cons_self q m
    · rw [if_neg hq] at h
      exact List.mem_cons_of_mem q (ih h)

theorem alookup_eq_some_iff_mem (m : List (String × α)) (k : String) (v : α)
    (hnd : (keys m).Nodup) : alookup m k = some v ↔ (k, v) ∈ m :=
  ⟨mem_of_alookup_eq_some m k v, alookup_eq_some_of_mem m k v hnd⟩

theorem eid_of_alookup (eid : α → String) (m : List (String × α)) (k : String)
    (v : α) (hkeyed : ∀ q ∈ m, eid q.2 = q.1) (h : alookup m k = some v) :
    eid v = k :=
  hkeyed (k, v) (mem_of_alookup_eq_some m k v h)

theorem keys_map_value (m : List (String × α)) (f : α → β) :
    keys (m.map (fun q => (q.1, f q.2))) = keys m := by
  simp [keys]

theorem wf_aset_existing (eid : α → String) (ids : List String)
    (m : List (String × α)) (k : String) (v : α)
    (hwf : wfEntityState eid ids m) (hk : k ∈ keys m) (hv : eid v = k) :
    wfEntityState eid ids (aset m k v) := by
  obtain ⟨h1, h2, h3, h4⟩ := hwf
  refine ⟨h1, ?_, ?_, ?_⟩
  · rw [keys_aset_of_mem m k v hk]
    exact h2
  · intro q hq
    rcases mem_aset m k v q hq with rfl | hq2
    · exact hv
    · exact h3 q hq2
  · rw [keys_aset_of_mem m k v hk]
    exact h4

theorem wfPosts_postUpdated (st : PostsState) (postId title content : String)
    (hwf : wfPosts st) : wfPosts (postUpdated st postId title content) := by
  rw [postUpdated]
  cases hl : alookup st.entities postId with
  | none => exact hwf
  | some p =>
    have hk : postId ∈ keys st.entities := by
      by_contra hc
      rw [← alookup_eq_none_iff] at hc
      rw [hl] at hc
      exact Option.noConfusion hc
    have hid : p.id = postId := eid_of_alookup Post.id st.entities postId p hwf.2.2.1 hl
    exact wf_aset_existing Post.id st.ids st.entities postId _ hwf hk hid

theorem wfPosts_reactionAdded (st : PostsState) (postId reaction : String)
    (hwf : wfPosts st) : wfPosts (reactionAdded st postId reaction) := by
  rw [reactionAdded]
  cases hl : alookup st.entities postId with
  | none => exact hwf
  | some p =>
    have hk : postId ∈ keys st.entities := by
      by_contra hc
      rw [← alookup_eq_none_iff] at hc
      rw [hl] at hc
      exact Option.noConfusion hc
    have hid : p.id = postId := eid_of_alookup Post.id st.entities postId p hwf.2.2.1 hl
    exact wf_aset_existing Post.id st.ids st.entities postId _ hwf hk hid

theorem wf_upsert_resort (eid dat : α → String) (m : List (String × α))
    (payload : List α) (hnd : (keys m).Nodup) (hkeyed : ∀ q ∈ m, eid q.2 = q.1) :
    wfEntityState eid (resortIds eid dat (upsertEntities eid m payload))
      (upsertEntities eid m payload) := by
  have h2 : (keys (upsertEntities eid m payload)).Nodup :=
    nodup_keys_upsert eid payload m hnd
  have h3 : ∀ q ∈ upsertEntities eid m payload, eid q.2 = q.1 :=
    keyed_by_id_upsert eid payload m hkeyed
  exact ⟨nodup_resortIds eid dat _ h2 h3, h2, h3,
    resortIds_perm_keys eid dat _ h3⟩

theorem wfPosts_fetchPostsFulfilled (st : PostsState) (payload : List Post)
    (hwf : wfPosts st) : wfPosts (fetchPostsFulfilled st payload) :=
  wf_upsert_resort Post.id Post.date st.entities payload hwf.2.1 hwf.2.2.1

theorem wfPosts_fetchPostsPending (st : PostsState) (hwf : wfPosts st) :
    wfPosts (fetchPostsPending st) := hwf

theorem wfPosts_fetchPostsRejected (st : PostsState) (message : Option String)
    (hwf : wfPosts st) : wfPosts (fetchPostsRejected st message) := hwf

theorem wfPosts_addNewPostFulfilled (st : PostsState) (p : Post)
    (hwf : wfPosts st) : wfPosts (addNewPostFulfilled st p) := by
  rw [addNewPostFulfilled]
  by_cases hc : st.entities.any (fun q => q.1 == p.id) = true
  · rw [if_pos hc]
    exact hwf
  · rw [if_neg hc]
    have hfresh : p.id ∉ keys st.entities :=
      fun hm => hc ((any_key_iff st.entities p.id).mpr hm)
    have h2 : (keys (st.entities ++ [(p.id, p)])).Nodup := by
      rw [keys_append, List.nodup_append]
      refine ⟨hwf.2.1, List.nodup_singleton _, ?_⟩
      intro a ha hb
      have heq : a = p.id := by simpa [keys] using hb
      rw [heq] at ha
      exact hfresh ha
    have h3 : ∀ q ∈ st.entities ++ [(p.id, p)], Post.id q.2 = q.1 := by
      intro q hq
      rcases List.mem_append.mp hq with hm | hm
      · exact hwf.2.2.1 q hm
      · have heq : q = (p.id, p) := by simpa using hm
        rw [heq]
    exact ⟨nodup_resortIds Post.id Post.date _ h2 h3, h2, h3,
      resortIds_perm_keys Post.id Post.date _ h3⟩

theorem wfUsers_fetchUsersFulfilled (st : UsersState) (payload : List User) :
    wfUsers (fetchUsersFulfilled st payload) := by
  have hfst : (addManyUnsorted User.id (([], []) :
      List String × List (String × User)) payload).1 =
      keys (addManyUnsorted User.id ([], []) payload).2 :=
    addManyUnsorted_fst_eq_keys User.id payload ([], []) rfl
  have h2 : (keys (addManyUnsorted User.id (([], []) :
      List String × List (String × User)) payload).2).Nodup :=
    nodup_keys_addManyUnsorted User.id payload ([], []) List.nodup_nil
  have h3 : ∀ q ∈ (addManyUnsorted User.id (([], []) :
      List String × List (String × User)) payload).2, User.id q.2 = q.1 :=
    keyed_by_id_addManyUnsorted User.id payload ([], []) (by intro q hq; simp at hq)
  refine ⟨?_, h2, h3, ?_⟩
  · rw [fetchUsersFulfilled]
    simp only [setAllEntities]
    rw [hfst]
    exact h2
  · rw [fetchUsersFulfilled]
    simp only [setAllEntities]
    rw [hfst]

theorem wf_map_value (eid : α → String) (ids : List String)
    (m : List (String × α)) (f : α → α) (hf : ∀ v, eid (f v) = eid v)
    (hwf : wfEntityState eid ids m) :
    wfEntityState eid ids (m.map (fun q => (q.1, f q.2))) := by
  obtain ⟨h1, h2, h3, h4⟩ := hwf
  refine ⟨h1, ?_, ?_, ?_⟩
  · rw [keys_map_value]
    exact h2
  · intro q hq
    rw [List.mem_map] at hq
    obtain ⟨q0, hq0, rfl⟩ := hq
    rw [hf q0.2]
    exact h3 q0 hq0
  · rw [keys_map_value]
    exact h4

theorem wfNotifs_fetchNotificationsFulfilled (st : NotifsState)
    (payload : List Notification) (hwf : wfNotifs st) :
    wfNotifs (fetchNotificationsFulfilled st payload) :=
  wf_map_value Notification.id
    (resortIds Notification.id Notification.date
      (upsertEntities Notification.id st.entities payload))
    (upsertEntities Notification.id st.entities payload)
    (fun n : Notification => { n with isNew := !n.read }) (fun _ => rfl)
    (wf_upsert_resort Notification.id Notification.date st.entities payload
      hwf.2.1 hwf.2.2.1)

theorem wfNotifs_allNotificationsRead (st : NotifsState) (hwf : wfNotifs st) :
    wfNotifs (allNotificationsRead st) :=
  wf_map_value Notification.id st.ids st.entities
    (fun n => { n with read := true }) (fun _ => rfl) hwf

instance (eid : α → String) (ids : List String) (m : List (String × α)) :
    Decidable (wfEntityState eid ids m) :=
  inferInstanceAs (Decidable (ids.Nodup ∧ (keys m).Nodup ∧
    (∀ q ∈ m, eid q.2 = q.1) ∧ List.Perm ids (keys m)))

instance (st : PostsState) : Decidable (wfPosts st) :=
  inferInstanceAs (Decidable (wfEntityState Post.id st.ids st.entities))

instance (st : UsersState) : Decidable (wfUsers st) :=
  inferInstanceAs (Decidable (wfEntityState User.id st.ids st.entities))

instance (st : NotifsState) : Decidable (wfNotifs st) :=
  inferInstanceAs (Decidable (wfEntityState Notification.id st.ids st.entities))

/-! ### Concrete fixtures used by the witnesses -/

def samplePostA : Post :=
  { id := "a", date := "2020-01-01T10:00:00", title := "First", content := "hello",
    user := "u1", reactions := [("thumbsUp", JsNum.num 2), ("hooray", JsNum.num 0)] }

def samplePostB : Post :=
  { id := "b", date := "2021-06-01T09:30:00", title := "Second", content := "more",
    user := "u2", reactions := [("thumbsUp", JsNum.num 0)] }

def samplePostsState : PostsState :=
  { ids := ["b", "a"], entities := [("a", samplePostA), ("b", samplePostB)],
    status := "succeeded", error := none }

def sampleUser1 : User := { id := "u1", name := "Ann" }

def sampleUser2 : User := { id := "u2", name := "Bob" }

def sampleUsersState : UsersState :=
  { ids := ["u9"], entities := [("u9", { id := "u9", name := "Old" })] }

def sampleNotifA : Notification :=
  { id := "n1", date := "2020-03-01T08:00:00", message := "says hi", user := "u1",
    read := false, isNew := true }

def sampleNotifB : Notification :=
  { id := "n2", date := "2022-05-05T12:00:00", message := "poked you", user := "u2",
    read := true, isNew := false }

def sampleNotifsState : NotifsState :=
  { ids := ["n1"], entities := [("n1", sampleNotifA)] }

/-- C1: ID uniqueness is an invariant of every slice using the normalized
`{ids, entities}` shape: every reducer of the posts, users, and notifications
slices preserves well-formedness (duplicate-free ids, exactly one record per
listed id, each record stored under its own id), and upserting a payload whose
id is already present replaces that record rather than adding a second copy
(the record under the id becomes the payload and the ids array keeps its
length). -/
theorem claim1_id_uniqueness_invariant
    (stP : PostsState) (stU : UsersState) (stN : NotifsState)
    (postId ti co reaction : String) (payloadP : List Post) (p : Post)
    (message : Option String) (payloadU : List User)
    (payloadN : List Notification)
    (hP : wfPosts stP) (hU : wfUsers stU) (hN : wfNotifs stN) :
    wfPosts (postUpdated stP postId ti co) ∧
    wfPosts (reactionAdded stP postId reaction) ∧
    wfPosts (fetchPostsPending stP) ∧
    wfPosts (fetchPostsFulfilled stP payloadP) ∧
    wfPosts (fetchPostsRejected stP message) ∧
    wfPosts (addNewPostFulfilled stP p) ∧
    wfUsers (fetchUsersFulfilled stU payloadU) ∧
    wfNotifs (fetchNotificationsFulfilled stN payloadN) ∧
    wfNotifs (allNotificationsRead stN) ∧
    (p.id ∈ keys stP.entities →
      alookup (fetchPostsFulfilled stP [p]).entities p.id = some p ∧
      (fetchPostsFulfilled stP [p]).ids.length = stP.ids.length) := by
  refine ⟨wfPosts_postUpdated stP postId ti co hP,
    wfPosts_reactionAdded stP postId reaction hP,
    wfPosts_fetchPostsPending stP hP,
    wfPosts_fetchPostsFulfilled stP payloadP hP,
    wfPosts_fetchPostsRejected stP message hP,
    wfPosts_addNewPostFulfilled stP p hP,
    wfUsers_fetchUsersFulfilled stU payloadU,
    wfNotifs_fetchNotificationsFulfilled stN payloadN hN,
    wfNotifs_allNotificationsRead stN hN, ?_⟩
  intro hmem
  constructor
  · exact alookup_upsert_of_mem_nodup Post.id [p] stP.entities p
      (by simp) (List.mem_singleton.mpr rfl)
  · have hkeys : keys (upsertEntities Post.id stP.entities [p]) = keys stP.entities :=
      length_keys_upsert_mem Post.id stP.entities p hmem
    have hperm := resortIds_perm_keys Post.id Post.date
      (upsertEntities Post.id stP.entities [p])
      (keyed_by_id_upsert Post.id [p] stP.entities hP.2.2.1)
    have h1 : (fetchPostsFulfilled stP [p]).ids.length =
        (keys (upsertEntities Post.id stP.entities [p])).length :=
      hperm.length_eq
    rw [h1, hkeys]
    exact (hP.2.2.2.length_eq).symm

/-- Witness for C1 at concrete states and payloads. -/
theorem claim1_witness :
    wfPosts samplePostsState ∧ wfUsers sampleUsersState ∧
    wfNotifs sampleNotifsState ∧
    (wfPosts (postUpdated samplePostsState "a" "T" "C") ∧
     wfPosts (reactionAdded samplePostsState "a" "hooray") ∧
     wfPosts (fetchPostsPending samplePostsState) ∧
     wfPosts (fetchPostsFulfilled samplePostsState [samplePostB]) ∧
     wfPosts (fetchPostsRejected samplePostsState (some "oops")) ∧
     wfPosts (addNewPostFulfilled samplePostsState samplePostA) ∧
     wfUsers (fetchUsersFulfilled sampleUsersState [sampleUser1, sampleUser2]) ∧
     wfNotifs (fetchNotificationsFulfilled sampleNotifsState [sampleNotifB]) ∧
     wfNotifs (allNotificationsRead sampleNotifsState) ∧
     (samplePostA.id ∈ keys samplePostsState.entities →
       alookup (fetchPostsFulfilled samplePostsState [samplePostA]).entities
         samplePostA.id = some samplePostA ∧
       (fetchPostsFulfilled samplePostsState [samplePostA]).ids.length =
         samplePostsState.ids.length)) :=
  ⟨by decide, by decide, by decide,
    claim1_id_uniqueness_invariant samplePostsState sampleUsersState
      sampleNotifsState "a" "T" "C" "hooray" [samplePostB] samplePostA
      (some "oops") [sampleUser1, sampleUser2] [sampleNotifB]
      (by decide) (by decide) (by decide)⟩

theorem selectAll_map_value (ids : List String) (m : List (String × α))
    (f : α → β) :
    selectAllEnt ids (m.map (fun q => (q.1, f q.2))) =
      (selectAllEnt ids m).map f := by
  induction ids with
  | nil => rfl
  | cons i ids ih =>
    rw [selectAllEnt, selectAllEnt, List.filterMap_cons, List.filterMap_cons,
      alookup_map_value]
    cases hl : alookup m i with
    | none =>
      simp only [Option.map_none']
      exact ih
    | some v =>
      simp only [Option.map_some', List.map_cons]
      rw [selectAllEnt] at ih
      rw [ih]
      rfl

/-- C2: sort order is recomputed on insert.  After `fetchPosts.fulfilled`
(`upsertMany`) and after `addNewPost.fulfilled` (`addOne`) the posts read back
in `ids` order are sorted newest-date-first according to the comparer
`(a, b) => b.date.localeCompare(a.date)`; the same holds for the normalized
notifications slice after `fetchNotifications.fulfilled` and for the
array-based notifications slice, whose state array is itself sorted
newest-first.  (`addOne` ignores a payload whose id already exists, in which
case the state — assumed sorted — is unchanged.) -/
theorem claim2_sort_order_recomputed_on_insert
    (stP : PostsState) (payload : List Post) (p : Post)
    (stN : NotifsState) (payloadN : List Notification)
    (arr payloadArr : List Notification)
    (hP : wfPosts stP) (hN : wfNotifs stN)
    (hsorted : List.Sorted (newestFirst Post.date) (selectAllPosts stP)) :
    List.Sorted (newestFirst Post.date)
      (selectAllPosts (fetchPostsFulfilled stP payload)) ∧
    List.Sorted (newestFirst Post.date)
      (selectAllPosts (addNewPostFulfilled stP p)) ∧
    List.Sorted (newestFirst Notification.date)
      (selectAllNotifications (fetchNotificationsFulfilled stN payloadN)) ∧
    List.Sorted (newestFirst Notification.date)
      (fetchNotificationsFulfilledArr arr payloadArr) := by
  refine ⟨?_, ?_, ?_, ?_⟩
  · exact sorted_selectAll_resort Post.id Post.date
      (upsertEntities Post.id stP.entities payload)
      (nodup_keys_upsert Post.id payload stP.entities hP.2.1)
      (keyed_by_id_upsert Post.id payload stP.entities hP.2.2.1)
  · rw [addNewPostFulfilled]
    by_cases hc : stP.entities.any (fun q => q.1 == p.id) = true
    · rw [if_pos hc]
      exact hsorted
    · rw [if_neg hc]
      have hfresh : p.id ∉ keys stP.entities :=
        fun hm => hc ((any_key_iff stP.entities p.id).mpr hm)
      have h2 : (keys (stP.entities ++ [(p.id, p)])).Nodup := by
        rw [keys_append, List.nodup_append]
        refine ⟨hP.2.1, List.nodup_singleton _, ?_⟩
        intro a ha hb
        have heq : a = p.id := by simpa [keys] using hb
        rw [heq] at ha
        exact hfresh ha
      have h3 : ∀ q ∈ stP.entities ++ [(p.id, p)], Post.id q.2 = q.1 := by
        intro q hq
        rcases List.mem_append.mp hq with hm | hm
        · exact hP.2.2.1 q hm
        · have heq : q = (p.id, p) := by simpa using hm
          rw [heq]
      exact sorted_selectAll_resort Post.id Post.date
        (stP.entities ++ [(p.id, p)]) h2 h3
  · have h2 : (keys (upsertEntities Notification.id stN.entities payloadN)).Nodup :=
      nodup_keys_upsert Notification.id payloadN stN.entities hN.2.1
    have h3 : ∀ q ∈ upsertEntities Notification.id stN.entities payloadN,
        Notification.id q.2 = q.1 :=
      keyed_by_id_upsert Notification.id payloadN stN.entities hN.2.2.1
    have hmv : selectAllEnt
        (resortIds Notification.id Notification.date
          (upsertEntities Notification.id stN.entities payloadN))
        ((upsertEntities Notification.id stN.entities payloadN).map
          (fun q => (q.1, { q.2 with isNew := !q.2.read }))) =
        (selectAllEnt
          (resortIds Notification.id Notification.date
            (upsertEntities Notification.id stN.entities payloadN))
          (upsertEntities Notification.id stN.entities payloadN)).map
          (fun n : Notification => { n with isNew := !n.read }) :=
      selectAll_map_value _ _ (fun n : Notification => { n with isNew := !n.read })
    show List.Sorted (newestFirst Notification.date)
      (selectAllEnt
        (resortIds Notification.id Notification.date
          (upsertEntities Notification.id stN.entities payloadN))
        ((upsertEntities Notification.id stN.entities payloadN).map
          (fun q => (q.1, { q.2 with isNew := !q.2.read }))))
    rw [hmv]
    have hs := sorted_selectAll_resort Notification.id Notification.date
      (upsertEntities Notification.id stN.entities payloadN) h2 h3
    exact List.pairwise_map.mpr hs
  · exact List.sorted_insertionSort (newestFirst Notification.date)
      (arr ++ payloadArr)

/-- Witness for C2 at concrete states and payloads. -/
theorem claim2_witness :
    wfPosts samplePostsState ∧ wfNotifs sampleNotifsState ∧
    List.Sorted (newestFirst Post.date) (selectAllPosts samplePostsState) ∧
    (List.Sorted (newestFirst Post.date)
      (selectAllPosts (fetchPostsFulfilled samplePostsState [samplePostA])) ∧
    List.Sorted (newestFirst Post.date)
      (selectAllPosts (addNewPostFulfilled samplePostsState
        { samplePostA with id := "c", date := "2022-01-01T00:00:00" })) ∧
    List.Sorted (newestFirst Notification.date)
      (selectAllNotifications
        (fetchNotificationsFulfilled sampleNotifsState [sampleNotifB])) ∧
    List.Sorted (newestFirst Notification.date)
      (fetchNotificationsFulfilledArr [sampleNotifA] [sampleNotifB])) :=
  ⟨by decide, by decide, by decide,
    claim2_sort_order_recomputed_on_insert samplePostsState [samplePostA]
      { samplePostA with id := "c", date := "2022-01-01T00:00:00" }
      sampleNotifsState [sampleNotifB] [sampleNotifA] [sampleNotifB]
      (by decide) (by decide) (by decide)⟩

/-- C3: the async fetch lifecycle for posts.  `fetchPosts.pending` sets
`status` to `'loading'`; `fetchPosts.fulfilled` sets `status` to `'succeeded'`
and upserts the payload's posts (each payload post is stored under its id,
keys outside the payload keep their previous record); `fetchPosts.rejected`
sets `status` to `'failed'` and `error` to the action's error message while
leaving `ids` and `entities` unchanged. -/
theorem claim3_fetch_lifecycle
    (st : PostsState) (payload : List Post) (message : Option String)
    (hnd : (payload.map Post.id).Nodup) :
    (fetchPostsPending st).status = "loading" ∧
    (fetchPostsFulfilled st payload).status = "succeeded" ∧
    (∀ p ∈ payload,
      alookup (fetchPostsFulfilled st payload).entities p.id = some p) ∧
    (∀ k, k ∉ payload.map Post.id →
      alookup (fetchPostsFulfilled st payload).entities k = alookup st.entities k) ∧
    (fetchPostsRejected st message).status = "failed" ∧
    (fetchPostsRejected st message).error = message ∧
    (fetchPostsRejected st message).ids = st.ids ∧
    (fetchPostsRejected st message).entities = st.entities := by
  refine ⟨rfl, rfl, ?_, ?_, rfl, rfl, rfl, rfl⟩
  · intro p hp
    exact alookup_upsert_of_mem_nodup Post.id payload st.entities p hnd hp
  · intro k hk
    exact alookup_upsert_of_not_mem Post.id payload st.entities k hk

/-- Witness for C3 at a concrete state and payload. -/
theorem claim3_witness :
    (([samplePostA, samplePostB].map Post.id).Nodup) ∧
    ((fetchPostsPending samplePostsState).status = "loading" ∧
     (fetchPostsFulfilled samplePostsState [samplePostA, samplePostB]).status =
       "succeeded" ∧
     (∀ p ∈ [samplePostA, samplePostB],
       alookup (fetchPostsFulfilled samplePostsState
         [samplePostA, samplePostB]).entities p.id = some p) ∧
     (∀ k, k ∉ [samplePostA, samplePostB].map Post.id →
       alookup (fetchPostsFulfilled samplePostsState
         [samplePostA, samplePostB]).entities k =
         alookup samplePostsState.entities k) ∧
     (fetchPostsRejected samplePostsState (some "boom")).status = "failed" ∧
     (fetchPostsRejected samplePostsState (some "boom")).error = some "boom" ∧
     (fetchPostsRejected samplePostsState (some "boom")).ids =
       samplePostsState.ids ∧
     (fetchPostsRejected samplePostsState (some "boom")).entities =
       samplePostsState.entities) :=
  ⟨by decide,
    claim3_fetch_lifecycle samplePostsState [samplePostA, samplePostB]
      (some "boom") (by decide)⟩

/-- C4: `postUpdated` mutates by shallow field assignment only.  When a post
is stored under `postId`, the resulting state differs from the input state
only in that post's `title` and `content`, which become the payload's values;
the post's `id`, `date`, `user` and `reactions`, every other post, the `ids`
array, `status` and `error` are unchanged. -/
theorem claim4_postUpdated_shallow_assignment
    (st : PostsState) (postId ti co : String) (p : Post)
    (hp : alookup st.entities postId = some p) :
    (∃ p2, alookup (postUpdated st postId ti co).entities postId = some p2 ∧
      p2.title = ti ∧ p2.content = co ∧ p2.id = p.id ∧ p2.date = p.date ∧
      p2.user = p.user ∧ p2.reactions = p.reactions) ∧
    (∀ k, k ≠ postId →
      alookup (postUpdated st postId ti co).entities k = alookup st.entities k) ∧
    (postUpdated st postId ti co).ids = st.ids ∧
    (postUpdated st postId ti co).status = st.status ∧
    (postUpdated st postId ti co).error = st.error := by
  have key : postUpdated st postId ti co =
      { st with
        entities :=
          aset st.entities postId ({ p with title := ti, content := co }) } := by
    rw [postUpdated, hp]
  rw [key]
  refine ⟨⟨{ p with title := ti, content := co }, ?_, rfl, rfl, rfl, rfl, rfl, rfl⟩,
    ?_, rfl, rfl, rfl⟩
  · exact alookup_aset_self st.entities postId _
  · intro k hk
    exact alookup_aset_ne st.entities postId k _ hk

/-- Witness for C4 at a concrete state and payload. -/
theorem claim4_witness :
    alookup samplePostsState.entities "a" = some samplePostA ∧
    ((∃ p2, alookup (postUpdated samplePostsState "a" "T2" "C2").entities "a" =
        some p2 ∧
      p2.title = "T2" ∧ p2.content = "C2" ∧ p2.id = samplePostA.id ∧
      p2.date = samplePostA.date ∧ p2.user = samplePostA.user ∧
      p2.reactions = samplePostA.reactions) ∧
    (∀ k, k ≠ "a" →
      alookup (postUpdated samplePostsState "a" "T2" "C2").entities k =
        alookup samplePostsState.entities k) ∧
    (postUpdated samplePostsState "a" "T2" "C2").ids = samplePostsState.ids ∧
    (postUpdated samplePostsState "a" "T2" "C2").status =
      samplePostsState.status ∧
    (postUpdated samplePostsState "a" "T2" "C2").error =
      samplePostsState.error) :=
  ⟨by decide,
    claim4_postUpdated_shallow_assignment samplePostsState "a" "T2" "C2"
      samplePostA (by decide)⟩

/-- C5: users are replaced wholesale.  `fetchUsers.fulfilled` produces a state
that depends only on the payload (any prior contents are discarded): with a
duplicate-free payload the `entities` table and `ids` array are exactly the
payload records in payload order, the lookup of any key is the first payload
record with that id, and the earlier array-based slice returns the payload
itself. -/
theorem claim5_users_whole_replacement
    (st st2 : UsersState) (old payload : List User)
    (hnd : (payload.map User.id).Nodup) :
    fetchUsersFulfilled st payload = fetchUsersFulfilled st2 payload ∧
    (fetchUsersFulfilled st payload).entities =
      payload.map (fun u => (u.id, u)) ∧
    (fetchUsersFulfilled st payload).ids = payload.map User.id ∧
    (∀ k, alookup (fetchUsersFulfilled st payload).entities k =
      payload.find? (fun u => u.id == k)) ∧
    fetchUsersFulfilledOld old payload = payload := by
  have hset : setAllEntities User.id payload =
      (payload.map User.id, payload.map (fun u => (u.id, u))) := by
    rw [setAllEntities]
    rw [addManyUnsorted_of_fresh User.id payload ([], []) hnd
      (by intro e he hm; simp [keys] at hm)]
    simp
  refine ⟨rfl, ?_, ?_, ?_, rfl⟩
  · show (setAllEntities User.id payload).2 = payload.map (fun u => (u.id, u))
    rw [hset]
  · show (setAllEntities User.id payload).1 = payload.map User.id
    rw [hset]
  · intro k
    show alookup (setAllEntities User.id payload).2 k =
      payload.find? (fun u => u.id == k)
    rw [setAllEntities]
    rw [alookup_addManyUnsorted User.id payload ([], []) k]
    rfl

/-- Witness for C5 at concrete states and payload. -/
theorem claim5_witness :
    (([sampleUser1, sampleUser2].map User.id).Nodup) ∧
    (fetchUsersFulfilled sampleUsersState [sampleUser1, sampleUser2] =
      fetchUsersFulfilled { ids := [], entities := [] }
        [sampleUser1, sampleUser2] ∧
    (fetchUsersFulfilled sampleUsersState [sampleUser1, sampleUser2]).entities =
      [sampleUser1, sampleUser2].map (fun u => (u.id, u)) ∧
    (fetchUsersFulfilled sampleUsersState [sampleUser1, sampleUser2]).ids =
      [sampleUser1, sampleUser2].map User.id ∧
    (∀ k, alookup (fetchUsersFulfilled sampleUsersState
        [sampleUser1, sampleUser2]).entities k =
      [sampleUser1, sampleUser2].find? (fun u => u.id == k)) ∧
    fetchUsersFulfilledOld [{ id := "u9", name := "Old" }]
      [sampleUser1, sampleUser2] = [sampleUser1, sampleUser2]) :=
  ⟨by decide,
    claim5_users_whole_replacement sampleUsersState
      { ids := [], entities := [] } [{ id := "u9", name := "Old" }]
      [sampleUser1, sampleUser2] (by decide)⟩

/-- C6: `selectPostsByUser userId` returns exactly the posts whose `user`
field is `userId`, in the same relative order as `selectAllPosts` (it is a
sublist of it), and the component-level filter in `UserPage` computes the same
list. -/
theorem claim6_selectPostsByUser_filter
    (st : PostsState) (userId : String) (p : Post) :
    (p ∈ selectPostsByUser userId st ↔ p ∈ selectAllPosts st ∧ p.user = userId) ∧
    List.Sublist (selectPostsByUser userId st) (selectAllPosts st) ∧
    postsForUser userId st = selectPostsByUser userId st := by
  refine ⟨?_, ?_, rfl⟩
  · rw [selectPostsByUser, List.mem_filter]
    simp only [beq_iff_eq]
  · rw [selectPostsByUser]
    exact List.filter_sublist _

theorem forall2_selectAll (ids : List String) (m : List (String × α))
    (h : ∀ i ∈ ids, i ∈ keys m) :
    List.Forall₂ (fun i v => alookup m i = some v) ids (selectAllEnt ids m) := by
  induction ids with
  | nil => exact List.Forall₂.nil
  | cons i ids ih =>
    rw [selectAllEnt, List.filterMap_cons]
    cases hl : alookup m i with
    | none =>
      exact absurd (h i (List.mem_cons_self i ids))
        ((alookup_eq_none_iff m i).mp hl)
    | some v =>
      exact List.Forall₂.cons hl
        (ih (fun j hj => h j (List.mem_cons_of_mem i hj)))

theorem selectPostByIdB_eq_some_iff (postId : String) (postsB : List PostB)
    (pb : PostB) (hnd : (postsB.map PostB.id).Nodup) :
    selectPostByIdB postId postsB = some pb ↔ pb ∈ postsB ∧ pb.id = postId := by
  induction postsB with
  | nil => simp [selectPostByIdB]
  | cons b bs ih =>
    rw [List.map_cons, List.nodup_cons] at hnd
    rw [selectPostByIdB, List.find?_cons]
    by_cases hb : b.id = postId
    · simp only [hb, beq_self_eq_true, cond_true]
      constructor
      · intro hsome
        have : b = pb := by simpa using hsome
        rw [← this]
        exact ⟨List.mem_cons_self b bs, hb⟩
      · rintro ⟨hm, hid⟩
        rcases List.mem_cons.mp hm with rfl | hm2
        · rfl
        · exact absurd (List.mem_map_of_mem PostB.id hm2)
            (by rw [hid, ← hb]; exact hnd.1)
    · have hcond : (b.id == postId) = false := by
        simp [hb]
      rw [hcond]
      show List.find? (fun post => post.id == postId) bs = some pb ↔
        pb ∈ b :: bs ∧ pb.id = postId
      rw [selectPostByIdB] at ih
      rw [ih hnd.2, List.mem_cons]
      constructor
      · rintro ⟨hm, hid⟩
        exact ⟨Or.inr hm, hid⟩
      · rintro ⟨rfl | hm, hid⟩
        · exact absurd hid hb
        · exact ⟨hm, hid⟩

/-- C7: the selectors serve back exactly what the store holds.
`selectPostById postId` returns the record stored in the posts lookup table
under `postId` (and `none` when the key is absent); `selectAllPosts` returns,
in the order given by the `ids` array, for each id the record stored under it;
and the bare-array slice's `selectPostById` returns the unique stored post
with that id. -/
theorem claim7_selectors_serve_store
    (st : PostsState) (postId : String) (p : Post)
    (postsB : List PostB) (pb : PostB)
    (hwf : wfPosts st) (hndB : (postsB.map PostB.id).Nodup) :
    (selectPostById postId st = some p ↔ (postId, p) ∈ st.entities) ∧
    (selectPostById postId st = none ↔ postId ∉ keys st.entities) ∧
    List.Forall₂ (fun i q => Post.id q = i ∧ alookup st.entities i = some q)
      st.ids (selectAllPosts st) ∧
    (selectPostByIdB postId postsB = some pb ↔ pb ∈ postsB ∧ pb.id = postId) := by
  refine ⟨alookup_eq_some_iff_mem st.entities postId p hwf.2.1,
    alookup_eq_none_iff st.entities postId, ?_,
    selectPostByIdB_eq_some_iff postId postsB pb hndB⟩
  have h0 : ∀ i ∈ st.ids, i ∈ keys st.entities :=
    fun i hi => (hwf.2.2.2.mem_iff).mp hi
  refine List.Forall₂.imp ?_ (forall2_selectAll st.ids st.entities h0)
  intro i q hq
  exact ⟨eid_of_alookup Post.id st.entities i q hwf.2.2.1 hq, hq⟩

/-- Witness for C7 at a concrete state. -/
theorem claim7_witness :
    wfPosts samplePostsState ∧
    (([⟨"1", "t", "c"⟩, ⟨"2", "t2", "c2"⟩].map PostB.id).Nodup) ∧
    ((selectPostById "a" samplePostsState = some samplePostA ↔
        ("a", samplePostA) ∈ samplePostsState.entities) ∧
     (selectPostById "a" samplePostsState = none ↔
        "a" ∉ keys samplePostsState.entities) ∧
     List.Forall₂
       (fun i q => Post.id q = i ∧ alookup samplePostsState.entities i = some q)
       samplePostsState.ids (selectAllPosts samplePostsState) ∧
     (selectPostByIdB "a" [⟨"1", "t", "c"⟩, ⟨"2", "t2", "c2"⟩] =
        some ⟨"1", "t", "c"⟩ ↔
      (⟨"1", "t", "c"⟩ : PostB) ∈ [⟨"1", "t", "c"⟩, ⟨"2", "t2", "c2"⟩] ∧
        (⟨"1", "t", "c"⟩ : PostB).id = "a")) :=
  ⟨by decide, by decide,
    claim7_selectors_serve_store samplePostsState "a" samplePostA
      [⟨"1", "t", "c"⟩, ⟨"2", "t2", "c2"⟩] ⟨"1", "t", "c"⟩
      (by decide) (by decide)⟩

/-- C8: missing-ID updates are total no-ops: `postUpdated` and `reactionAdded`
on a `postId` with no stored post return the state unchanged, and so do the
array-based `postUpdated`/`reactionAdded` of the earlier slices. -/
theorem claim8_missing_id_noop
    (st : PostsState) (starr : PostsArrState) (postsB : List PostB)
    (postId reaction ti co : String)
    (h1 : alookup st.entities postId = none)
    (h2 : starr.posts.find? (fun post => post.id == postId) = none)
    (h3 : postsB.find? (fun post => post.id == postId) = none) :
    postUpdated st postId ti co = st ∧
    reactionAdded st postId reaction = st ∧
    postUpdatedArr starr postId ti co = starr ∧
    reactionAddedArr starr postId reaction = starr ∧
    postUpdatedB postsB postId ti co = postsB := by
  refine ⟨?_, ?_, ?_, ?_, ?_⟩
  · rw [postUpdated, h1]
  · rw [reactionAdded, h1]
  · rw [postUpdatedArr, h2]
  · rw [reactionAddedArr, h2]
  · rw [postUpdatedB, h3]

/-- Witness for C8 at a concrete state and id absent from it. -/
theorem claim8_witness :
    alookup samplePostsState.entities "zzz" = none ∧
    ((⟨[samplePostA], "idle", none⟩ : PostsArrState).posts.find?
      (fun post => post.id == "zzz") = none) ∧
    (([⟨"1", "t", "c"⟩] : List PostB).find?
      (fun post => post.id == "zzz") = none) ∧
    (postUpdated samplePostsState "zzz" "T" "C" = samplePostsState ∧
     reactionAdded samplePostsState "zzz" "heart" = samplePostsState ∧
     postUpdatedArr ⟨[samplePostA], "idle", none⟩ "zzz" "T" "C" =
       ⟨[samplePostA], "idle", none⟩ ∧
     reactionAddedArr ⟨[samplePostA], "idle", none⟩ "zzz" "heart" =
       ⟨[samplePostA], "idle", none⟩ ∧
     postUpdatedB [⟨"1", "t", "c"⟩] "zzz" "T" "C" = [⟨"1", "t", "c"⟩]) :=
  ⟨by decide, by decide, by decide,
    claim8_missing_id_noop samplePostsState ⟨[samplePostA], "idle", none⟩
      [⟨"1", "t", "c"⟩] "zzz" "heart" "T" "C"
      (by decide) (by decide) (by decide)⟩

/-- C9: after `fetchNotifications.fulfilled` every stored notification
satisfies `isNew = !read`, and after `allNotificationsRead` every stored
notification has `read = true`. -/
theorem claim9_notifications_read_flags
    (st : NotifsState) (payload : List Notification) :
    (∀ q ∈ (fetchNotificationsFulfilled st payload).entities,
      q.2.isNew = !q.2.read) ∧
    (∀ q ∈ (allNotificationsRead st).entities, q.2.read = true) := by
  constructor
  · intro q hq
    have hq2 : q ∈ (upsertEntities Notification.id st.entities payload).map
        (fun r => (r.1, { r.2 with isNew := !r.2.read })) := hq
    rw [List.mem_map] at hq2
    obtain ⟨r, _, rfl⟩ := hq2
    rfl
  · intro q hq
    have hq2 : q ∈ st.entities.map
        (fun r => (r.1, { r.2 with read := true })) := hq
    rw [List.mem_map] at hq2
    obtain ⟨r, _, rfl⟩ := hq2
    rfl

/-- Witness for C9: the flag equations at a concrete stored notification. -/
theorem claim9_witness :
    (("n1", { sampleNotifA with isNew := true }) ∈
      (fetchNotificationsFulfilled sampleNotifsState [sampleNotifB]).entities) ∧
    (("n1", { sampleNotifA with isNew := true }) :
        String × Notification).2.isNew =
      !(("n1", { sampleNotifA with isNew := true }) :
        String × Notification).2.read ∧
    (("n1", { sampleNotifA with read := true }) ∈
      (allNotificationsRead sampleNotifsState).entities) ∧
    (("n1", { sampleNotifA with read := true }) :
        String × Notification).2.read = true :=
  ⟨by decide,
    (claim9_notifications_read_flags sampleNotifsState [sampleNotifB]).1
      ("n1", { sampleNotifA with isNew := true }) (by decide),
    by decide,
    (claim9_notifications_read_flags sampleNotifsState [sampleNotifB]).2
      ("n1", { sampleNotifA with read := true }) (by decide)⟩

/-- C10: `reactionAdded` on an existing post increments exactly the named
reaction counter by one: the post stored under `postId` gets that counter's
value raised from `n` to `n + 1` while its other counters and its other
fields, every other post, the `ids` array, `status` and `error` are
unchanged. -/
theorem claim10_reactionAdded_increment
    (st : PostsState) (postId reaction : String) (p : Post) (n : Nat)
    (hp : alookup st.entities postId = some p)
    (hr : alookup p.reactions reaction = some (JsNum.num n)) :
    (∃ p2, alookup (reactionAdded st postId reaction).entities postId = some p2 ∧
      alookup p2.reactions reaction = some (JsNum.num (n + 1)) ∧
      (∀ r, r ≠ reaction → alookup p2.reactions r = alookup p.reactions r) ∧
      p2.id = p.id ∧ p2.date = p.date ∧ p2.title = p.title ∧
      p2.content = p.content ∧ p2.user = p.user) ∧
    (∀ k, k ≠ postId →
      alookup (reactionAdded st postId reaction).entities k =
        alookup st.entities k) ∧
    (reactionAdded st postId reaction).ids = st.ids ∧
    (reactionAdded st postId reaction).status = st.status ∧
    (reactionAdded st postId reaction).error = st.error := by
  have hbump : bumpReaction p.reactions reaction =
      aset p.reactions reaction (JsNum.num (n + 1)) := by
    rw [bumpReaction, hr]
    rfl
  have key : reactionAdded st postId reaction =
      { st with
        entities :=
          aset st.entities postId
            ({ p with
                reactions := aset p.reactions reaction (JsNum.num (n + 1)) }) } := by
    rw [reactionAdded, hp]
    show ({ st with
      entities :=
        aset st.entities postId
          ({ p with reactions := bumpReaction p.reactions reaction }) } :
        PostsState) = _
    rw [hbump]
  rw [key]
  refine ⟨⟨{ p with reactions := aset p.reactions reaction (JsNum.num (n + 1)) },
    alookup_aset_self st.entities postId _,
    alookup_aset_self p.reactions reaction _, ?_, rfl, rfl, rfl, rfl, rfl⟩,
    ?_, rfl, rfl, rfl⟩
  · intro r hrr
    exact alookup_aset_ne p.reactions reaction r _ hrr
  · intro k hk
    exact alookup_aset_ne st.entities postId k _ hk

/-- Witness for C10 at a concrete state, post and reaction. -/
theorem claim10_witness :
    alookup samplePostsState.entities "a" = some samplePostA ∧
    alookup samplePostA.reactions "thumbsUp" = some (JsNum.num 2) ∧
    ((∃ p2, alookup (reactionAdded samplePostsState "a" "thumbsUp").entities "a" =
        some p2 ∧
      alookup p2.reactions "thumbsUp" = some (JsNum.num 3) ∧
      (∀ r, r ≠ "thumbsUp" →
        alookup p2.reactions r = alookup samplePostA.reactions r) ∧
      p2.id = samplePostA.id ∧ p2.date = samplePostA.date ∧
      p2.title = samplePostA.title ∧ p2.content = samplePostA.content ∧
      p2.user = samplePostA.user) ∧
    (∀ k, k ≠ "a" →
      alookup (reactionAdded samplePostsState "a" "thumbsUp").entities k =
        alookup samplePostsState.entities k) ∧
    (reactionAdded samplePostsState "a" "thumbsUp").ids =
      samplePostsState.ids ∧
    (reactionAdded samplePostsState "a" "thumbsUp").status =
      samplePostsState.status ∧
    (reactionAdded samplePostsState "a" "thumbsUp").error =
      samplePostsState.error) :=
  ⟨by decide, by decide,
    claim10_reactionAdded_increment samplePostsState "a" "thumbsUp"
      samplePostA 2 (by decide) (by decide)⟩
